import Mathlib

/-!
# google-calendar-sum: the aggregation in `internal/sum/sum.go`

A shallow embedding of `sum.ThisYear` and the properties of its report.

`ThisYear` asks the calendar service for the events of the year page by page,
adds up `end - start` per event summary in a Go map, turns the map into a slice,
sorts the slice by duration, keeps at most 30 results and prints them.

Modelling conventions.

* `time.Duration` is an `Int` kept inside the int64 range: `+=` wraps
  (`wrapInt64`), `Time.Sub` saturates, both exactly as in Go.
* `time.Time` is an `Int`: nanoseconds since Go's zero time
  `0001-01-01T00:00:00Z`.  The values in play carry no monotonic clock reading.
* The calendar service is outside the program.  A run is determined by the
  responses that `q.Do()` returns one after the other, so `ThisYear` takes this
  list of responses and reports the requests it issued, the slice `results`,
  the text written to standard output and the returned error.  When the list is
  used up while the loop still asks for a page, the run is still blocked in
  `q.Do()`.
* What Go leaves open (the iteration order of `range` over a map, the order in
  which `sort.Slice` leaves equal elements) and what the standard library
  decides (`time.Parse`) is collected in `Runtime`; every theorem holds for
  every `Runtime`.  `goRuntime` is one concrete instance used for evaluation.
* `calendar.Event.Start` and `.End` are taken to be present (the fields are
  pointers in the client library; the service fills them for every event that
  is not cancelled, and the query asks for `ShowDeleted(false)`).
* The `slog` calls write to standard error and are left out.
-/

namespace CalendarSum

set_option maxRecDepth 100000

/-! ## `time` -/

/-- Go `time.Duration`: a count of nanoseconds held in an int64. -/
abbrev Duration := Int

/-- Go `time.Time` as nanoseconds since the zero time `0001-01-01T00:00:00Z`. -/
abbrev Time := Int

/-- Smallest int64, `time.minDuration`. -/
def minDuration : Int := -(2 ^ 63)

/-- Largest int64, `time.maxDuration`. -/
def maxDuration : Int := 2 ^ 63 - 1

/-- Membership in the int64 range. -/
def InRange (x : Int) : Prop := minDuration ≤ x ∧ x ≤ maxDuration

instance (x : Int) : Decidable (InRange x) :=
  inferInstanceAs (Decidable (minDuration ≤ x ∧ x ≤ maxDuration))

/-- Two's complement wraparound of int64 arithmetic. -/
def wrapInt64 (x : Int) : Int := (x + 2 ^ 63) % 2 ^ 64 - 2 ^ 63

/-- The zero value `time.Time{}`. -/
def zeroTime : Time := 0

/-- Go `Time.Sub`: `t - u`, or the smallest or largest duration when the
difference does not fit in an int64. -/
def Time.Sub (t u : Time) : Duration :=
  if t - u < minDuration then minDuration
  else if maxDuration < t - u then maxDuration
  else t - u

/-- Go `time.fmtInt`: the decimal digits of `v` put in front of `buf`
(`fuel` bounds the loop `for v > 0`). -/
def fmtIntLoop : Nat → Nat → List Char → List Char
  | 0, _, buf => buf
  | fuel + 1, v, buf =>
    if v > 0 then fmtIntLoop fuel (v / 10) (Char.ofNat (v % 10 + 48) :: buf) else buf

/-- Go `time.fmtInt`. -/
def fmtInt (buf : List Char) (v : Nat) : List Char :=
  if v = 0 then '0' :: buf else fmtIntLoop v v buf

/-- Go `time.fmtFrac`: the loop over the `prec` low digits of `v`; `print`
becomes true at the first non-zero digit, trailing zeros are dropped. -/
def fmtFracLoop : Nat → Nat → Bool → List Char → List Char × Nat × Bool
  | 0, v, print, buf => (buf, v, print)
  | prec + 1, v, print, buf =>
    let digit := v % 10
    let print := print || digit != 0
    fmtFracLoop prec (v / 10) print (if print then Char.ofNat (digit + 48) :: buf else buf)

/-- Go `time.fmtFrac`: formats the fraction of `v / 10^prec` in front of `buf`
and returns `v / 10^prec`. -/
def fmtFrac (buf : List Char) (v : Nat) (prec : Nat) : List Char × Nat :=
  let r := fmtFracLoop prec v false buf
  (if r.2.2 then '.' :: r.1 else r.1, r.2.1)

/-- Go `Duration.format`, the body of `Duration.String`, for the magnitude `u`
of the duration. -/
def Duration.formatAbs (u : Nat) : List Char :=
  if u < 1000000000 then
    if u = 0 then ['0', 's']
    else if u < 1000 then fmtInt ['n', 's'] u
    else if u < 1000000 then
      let r := fmtFrac ['µ', 's'] u 3
      fmtInt r.1 r.2
    else
      let r := fmtFrac ['m', 's'] u 6
      fmtInt r.1 r.2
  else
    let r := fmtFrac ['s'] u 9
    let buf := fmtInt r.1 (r.2 % 60)
    let u := r.2 / 60
    if u > 0 then
      let buf := fmtInt ('m' :: buf) (u % 60)
      let u := u / 60
      if u > 0 then fmtInt ('h' :: buf) u else buf
    else buf

/-- Go `Duration.String`, which `%v` prints: `1h0m0s`, `15m0s`, `1.5s`, `0s`. -/
def Duration.String (d : Duration) : String :=
  String.mk (if d < 0 then '-' :: Duration.formatAbs d.natAbs else Duration.formatAbs d.natAbs)

/-- Decimal rendering of a non-negative `int`, as `%d` prints it. -/
def itoa (n : Nat) : String := String.mk (fmtInt [] n)

/-! ## `calendar` -/

/-- Go `calendar.EventDateTime`: `DateTime` is the RFC3339 date-time of a timed
event and is empty for an all-day event. -/
structure EventDateTime where
  DateTime : String
deriving DecidableEq, Repr

/-- Go `calendar.Event`, the fields that `ThisYear` reads. -/
structure Event where
  Summary : String
  Start : EventDateTime
  End : EventDateTime
deriving DecidableEq, Repr

/-- Go `calendar.Events`: one page of the listing. -/
structure Events where
  Items : List Event
  NextPageToken : String
deriving DecidableEq, Repr

/-- A Go `error`: a plain one, or one made by `fmt.Errorf` with `%w`, which
prints as the text before `%w` followed by the message of the wrapped error. -/
inductive GoError where
  | plain (msg : String)
  | wrap (text : String) (err : GoError)
deriving DecidableEq, Repr

/-- Go `error.Error()`. -/
def GoError.Error : GoError → String
  | .plain msg => msg
  | .wrap text err => text ++ err.Error

/-- Go `error` unwrapping (`errors.Unwrap`). -/
def GoError.Unwrap : GoError → Option GoError
  | .plain _ => none
  | .wrap _ err => some err

/-- One `Events.List` request.  Calendar id, `ShowDeleted`, `SingleEvents`,
`TimeMin`, `TimeMax`, `MaxResults` and `OrderBy` are set to the same values on
every iteration; the requests differ in the page token, which is set only when
`pageToken != ""`. -/
structure ListCall where
  PageToken : Option String
deriving DecidableEq, Repr

/-! ## The parts of Go that the program relies on -/

/-- The element type of the slice `results`. -/
structure result where
  Summary : String
  Duration : Duration
deriving DecidableEq, Repr

/-- What `sort.Slice` asks of its `less` function: a strict weak ordering. -/
def StrictWeak (less : result → result → Bool) : Prop :=
  (∀ a b, less a b = true → less b a = false) ∧
  (∀ a b c, less a b = false → less b c = false → less a c = false)

/-- The behaviour of the Go runtime and standard library seen by `ThisYear`. -/
structure Runtime where
  /-- Go `time.Parse(time.RFC3339, s)`: the instant, or `none` for an error. -/
  Parse : String → Option Time
  /-- The order in which `for summary, duration := range sums` visits the map. -/
  rangeMap : List (String × Duration) → List (String × Duration)
  /-- A `range` visits every entry of the map exactly once. -/
  rangeMap_perm : ∀ m, (rangeMap m).Perm m
  /-- Go `sort.Slice(x, less)`. -/
  sortSlice : List result → (result → result → Bool) → List result
  /-- The sorted slice holds the same elements. -/
  sortSlice_perm : ∀ x less, (sortSlice x less).Perm x
  /-- After the sort no element is `less` than an element before it. -/
  sortSlice_sorted : ∀ x less, StrictWeak less →
    (sortSlice x less).Pairwise (fun a b => less b a = false)

/-! ## The accumulator `sums : map[string]time.Duration` -/

/-- The map `sums` as the list of its entries. -/
abbrev SumMap := List (String × Duration)

/-- Go map read `sums[k]`: the zero value when the key is absent. -/
def SumMap.get : SumMap → String → Duration
  | [], _ => 0
  | (k', v) :: m, k => if k' = k then v else SumMap.get m k

/-- Go map write `sums[k] = v`. -/
def SumMap.set : SumMap → String → Duration → SumMap
  | [], k, v => [(k, v)]
  | (k', v') :: m, k, v => if k' = k then (k, v) :: m else (k', v') :: SumMap.set m k v

/-- The keys held in the map. -/
def SumMap.keys (m : SumMap) : List String := m.map Prod.fst

/-! ## `ThisYear` -/

/-- The guard of line 42 negated: both date-times are non-empty. -/
def dated (item : Event) : Prop := ¬ (item.Start.DateTime = "" ∨ item.End.DateTime = "")

instance (item : Event) : Decidable (dated item) :=
  inferInstanceAs (Decidable (¬ (item.Start.DateTime = "" ∨ item.End.DateTime = "")))

/-- The instant bound to a variable by `v, _ := time.Parse(time.RFC3339, s)`:
on an error `time.Parse` returns the zero `Time`, and the error is dropped. -/
def Runtime.parseIgnoringError (rt : Runtime) (s : String) : Time :=
  match rt.Parse s with
  | some t => t
  | none => zeroTime

/-- The value of `end.Sub(start)` for an item that passed the guard. -/
def Runtime.itemDuration (rt : Runtime) (item : Event) : Duration :=
  let start := rt.parseIgnoringError item.Start.DateTime
  let «end» := rt.parseIgnoringError item.End.DateTime
  Time.Sub «end» start

/-- The body of `for _, item := range events.Items` (lines 41-48). -/
def addItem (rt : Runtime) (sums : SumMap) (item : Event) : SumMap :=
  if item.Start.DateTime = "" ∨ item.End.DateTime = "" then sums
  else
    sums.set item.Summary (wrapInt64 (sums.get item.Summary + rt.itemDuration item))

/-- The loop over the items of one page. -/
def addItems (rt : Runtime) (sums : SumMap) (items : List Event) : SumMap :=
  items.foldl (addItem rt) sums

/-- The request built at the top of the loop (lines 22-32). -/
def listCall (pageToken : String) : ListCall :=
  if pageToken ≠ "" then ⟨some pageToken⟩ else ⟨none⟩

/-- How the fetch loop of lines 21-55 ends. -/
inductive Fetched where
  /-- The last request has not been answered. -/
  | blocked (calls : List ListCall)
  /-- The `return fmt.Errorf(...)` of line 37. -/
  | failed (calls : List ListCall) (err : GoError)
  /-- The `break` of line 54. -/
  | done (calls : List ListCall) (sums : SumMap)
deriving DecidableEq, Repr

/-- The fetch loop (lines 21-55), run against the responses of `q.Do()`;
`calls` are the requests issued before this iteration. -/
def fetchLoop (rt : Runtime) :
    List (Except GoError Events) → String → SumMap → List ListCall → Fetched
  | [], pageToken, _, calls => .blocked (calls ++ [listCall pageToken])
  | .error err :: _, pageToken, _, calls =>
    .failed (calls ++ [listCall pageToken]) (.wrap "retrieve the user's events: " err)
  | .ok events :: responses, pageToken, sums, calls =>
    let sums := addItems rt sums events.Items
    if events.NextPageToken ≠ "" then
      fetchLoop rt responses events.NextPageToken sums (calls ++ [listCall pageToken])
    else
      .done (calls ++ [listCall pageToken]) sums

/-- The `less` function handed to `sort.Slice` (line 66). -/
def less (a b : result) : Bool := decide (a.Duration > b.Duration)

/-- The constant `max` of line 70. -/
def max : Nat := 30

/-- Lines 61-74: the map is copied into a slice, sorted, and cut to `max`. -/
def rank (rt : Runtime) (sums : SumMap) : List result :=
  let results := (rt.rangeMap sums).map (fun p => result.mk p.1 p.2)
  let results := rt.sortSlice results less
  if results.length > max then results.take max else results

/-- The text of `fmt.Printf("%d. %s: %v\n", i+1, r.Summary, r.Duration)`. -/
def printLine (i : Nat) (r : result) : String :=
  itoa (i + 1) ++ ". " ++ r.Summary ++ ": " ++ r.Duration.String ++ "\n"

/-- Lines 76-78: everything the print loop writes, `i` being the index of the
first element of `results`. -/
def printFrom : Nat → List result → String
  | _, [] => ""
  | i, r :: results => printLine i r ++ printFrom (i + 1) results

/-- What one call of `ThisYear` does. -/
structure Run where
  /-- The `Events.List` requests issued, in order. -/
  calls : List ListCall
  /-- The slice `results` when the print loop is reached, empty if it is not. -/
  results : List result
  /-- The text written to standard output. -/
  stdout : String
  /-- The returned `error`: `none` while the call has not returned,
  `some none` for `nil`. -/
  ret : Option (Option GoError)
deriving DecidableEq, Repr

/-- Go `sum.ThisYear`, run against the successive responses of `q.Do()`. -/
def ThisYear (rt : Runtime) (responses : List (Except GoError Events)) : Run :=
  match fetchLoop rt responses "" [] [] with
  | .blocked calls => ⟨calls, [], "", none⟩
  | .failed calls err => ⟨calls, [], "", some (some err)⟩
  | .done calls sums =>
    let results := rank rt sums
    ⟨calls, results, printFrom 0 results, some none⟩

/-! ## A concrete runtime -/

/-- Reads exactly `n` decimal digits. -/
def takeDigits : Nat → Nat → List Char → Option (Nat × List Char)
  | 0, acc, cs => some (acc, cs)
  | _ + 1, _, [] => none
  | n + 1, acc, c :: cs =>
    if '0' ≤ c ∧ c ≤ '9' then takeDigits n (acc * 10 + (c.toNat - 48)) cs else none

/-- Reads the character `c`. -/
def expectChar (c : Char) : List Char → Option (List Char)
  | [] => none
  | c' :: cs => if c' = c then some cs else none

/-- Reads the digits of a fractional second: the nanoseconds given by the first
nine digits, the number of digits read, and the rest. -/
def takeFraction : List Char → Nat → Nat → Nat × Nat × List Char
  | [], ns, n => (ns * 10 ^ (9 - n), n, [])
  | c :: cs, ns, n =>
    if '0' ≤ c ∧ c ≤ '9' then
      takeFraction cs (if n < 9 then ns * 10 + (c.toNat - 48) else ns) (n + 1)
    else (ns * 10 ^ (9 - n), n, c :: cs)

/-- Leap years of the Gregorian calendar. -/
def isLeap (year : Nat) : Bool := year % 4 = 0 ∧ (year % 100 ≠ 0 ∨ year % 400 = 0)

/-- Days in a month. -/
def daysIn (month year : Nat) : Nat :=
  if month = 2 then (if isLeap year then 29 else 28)
  else if month = 4 ∨ month = 6 ∨ month = 9 ∨ month = 11 then 30 else 31

/-- Days of the year before the first of the month. -/
def daysBefore (month year : Nat) : Nat :=
  ((List.range (month - 1)).map (fun m => daysIn (m + 1) year)).sum

/-- Days from `0001-01-01` to the given date of the proleptic Gregorian calendar. -/
def daysSinceZero (year month day : Nat) : Int :=
  let y : Int := (year : Int) - 1
  365 * y + y / 4 - y / 100 + y / 400 + (daysBefore month year : Nat) + ((day : Int) - 1)

/-- The numeric zone `hh:mm` after the sign, in seconds. -/
def parseOffset (cs : List Char) : Option Nat :=
  (takeDigits 2 0 cs).bind fun hc =>
  (expectChar ':' hc.2).bind fun cs =>
  (takeDigits 2 0 cs).bind fun mc =>
  if mc.2 ≠ [] ∨ hc.1 > 24 ∨ mc.1 > 60 then none else some ((hc.1 * 60 + mc.1) * 60)

/-- The zone of an RFC3339 date-time: `Z` or `+hh:mm` or `-hh:mm`, as seconds
east of UTC. -/
def parseZone : List Char → Option Int
  | [] => none
  | sign :: cs =>
    if sign = 'Z' then (if cs = [] then some 0 else none)
    else if sign = '+' then (parseOffset cs).map fun off => (off : Int)
    else if sign = '-' then (parseOffset cs).map fun off => -(off : Int)
    else none

/-- The date `YYYY-MM-DD`: year, month and day. -/
def parseDate (cs : List Char) : Option ((Nat × Nat × Nat) × List Char) :=
  (takeDigits 4 0 cs).bind fun yc =>
  (expectChar '-' yc.2).bind fun cs =>
  (takeDigits 2 0 cs).bind fun mc =>
  (expectChar '-' mc.2).bind fun cs =>
  (takeDigits 2 0 cs).bind fun dc =>
  some ((yc.1, mc.1, dc.1), dc.2)

/-- The time of day `HH:MM:SS`: hour, minute and second. -/
def parseClock (cs : List Char) : Option ((Nat × Nat × Nat) × List Char) :=
  (takeDigits 2 0 cs).bind fun hc =>
  (expectChar ':' hc.2).bind fun cs =>
  (takeDigits 2 0 cs).bind fun mc =>
  (expectChar ':' mc.2).bind fun cs =>
  (takeDigits 2 0 cs).bind fun sc =>
  some ((hc.1, mc.1, sc.1), sc.2)

/-- The optional fractional second, in nanoseconds. -/
def parseFraction : List Char → Option (Nat × List Char)
  | '.' :: cs =>
    let r := takeFraction cs 0 0
    if r.2.1 = 0 then none else some (r.1, r.2.2)
  | cs => some (0, cs)

/-- The instant of a date and a time of day that are in range. -/
def instantOf (date clock : Nat × Nat × Nat) (nsec : Nat) (offset : Int) : Option Time :=
  if date.2.1 < 1 ∨ 12 < date.2.1 ∨ date.2.2 < 1 ∨ daysIn date.2.1 date.1 < date.2.2
      ∨ 24 ≤ clock.1 ∨ 60 ≤ clock.2.1 ∨ 60 ≤ clock.2.2 then none
  else
    let secs : Int :=
      daysSinceZero date.1 date.2.1 date.2.2 * 86400
        + ((clock.1 * 3600 + clock.2.1 * 60 + clock.2.2 : Nat) : Int) - offset
    some (secs * 1000000000 + (nsec : Nat))

/-- A model of `time.Parse(time.RFC3339, s)` on the fixed-width form
`YYYY-MM-DDTHH:MM:SS[.fraction](Z|+hh:mm|-hh:mm)`.  Every string it accepts is
read as `time.Parse` reads it; strings of other shapes are rejected here (a few
of them, such as a one-digit hour, are still accepted by `time.Parse`; none is
used below). -/
def parseRFC3339 (s : String) : Option Time :=
  (parseDate s.data).bind fun dc =>
  (expectChar 'T' dc.2).bind fun cs =>
  (parseClock cs).bind fun cc =>
  (parseFraction cc.2).bind fun fc =>
  (parseZone fc.2).bind fun offset =>
  instantOf dc.1 cc.1 fc.1 offset

/-- Insertion into a slice sorted by `less`, after the elements that are not
after `a`. -/
def insertSorted (less : result → result → Bool) (a : result) : List result → List result
  | [] => [a]
  | b :: l => if less a b then a :: b :: l else b :: insertSorted less a l

/-- A stable insertion sort. -/
def insertionSort (less : result → result → Bool) : List result → List result
  | [] => []
  | a :: l => insertSorted less a (insertionSort less l)

/-- A runtime for evaluation: `range` visits the entries in the order of their
first insertion, `sort.Slice` is a stable insertion sort, `time.Parse` is
`parseRFC3339`. -/
def goRuntime : Runtime where
  Parse := parseRFC3339
  rangeMap := fun m => m
  rangeMap_perm := fun m => List.Perm.refl m
  sortSlice := fun x less => insertionSort less x
  sortSlice_perm := by
    intro x less
    have ins : ∀ (a : result) (l : List result), (insertSorted less a l).Perm (a :: l) := by
      intro a l
      induction l with
      | nil => exact List.Perm.refl _
      | cons b l ih =>
        unfold insertSorted
        split
        · exact List.Perm.refl _
        · exact ((List.Perm.cons b ih).trans (List.Perm.swap a b l))
    induction x with
    | nil => exact List.Perm.refl _
    | cons a l ih => exact (ins a _).trans (List.Perm.cons a ih)
  sortSlice_sorted := by
    intro x less hless
    have ins : ∀ (a : result) (l : List result),
        l.Pairwise (fun a b => less b a = false) →
        (insertSorted less a l).Pairwise (fun a b => less b a = false) ∧
        ∀ c, (∀ y ∈ a :: l, less y c = false) →
          ∀ y ∈ insertSorted less a l, less y c = false := by
      intro a l
      induction l with
      | nil =>
        intro _
        refine ⟨by simp [insertSorted], ?_⟩
        intro c hc y hy
        simp only [insertSorted] at hy
        exact hc y hy
      | cons b l ih =>
        intro hl
        have hb := (List.pairwise_cons.1 hl).1
        have hl2 := (List.pairwise_cons.1 hl).2
        unfold insertSorted
        split
        · rename_i hab
          refine ⟨List.pairwise_cons.2 ⟨?_, hl⟩, fun c hc y hy => hc y hy⟩
          intro y hy
          rcases List.mem_cons.1 hy with rfl | hy
          · exact hless.1 _ _ hab
          · exact hless.2 _ _ _ (hb y hy) (hless.1 _ _ hab)
        · rename_i hab
          have hab2 : less a b = false := by simpa using hab
          obtain ⟨ih1, ih2⟩ := ih hl2
          refine ⟨List.pairwise_cons.2 ⟨?_, ih1⟩, ?_⟩
          · intro y hy
            refine ih2 b ?_ y hy
            intro z hz
            rcases List.mem_cons.1 hz with rfl | hz
            · exact hab2
            · exact hb z hz
          · intro c hc y hy
            rcases List.mem_cons.1 hy with rfl | hy
            · exact hc _ (by simp)
            · exact ih2 c (fun z hz => hc z (by
                rcases List.mem_cons.1 hz with rfl | hz
                · simp
                · simp [hz])) y hy
    induction x with
    | nil => exact List.Pairwise.nil
    | cons a l ih => exact (ins a _ ih).1

/-! ## Quantities the statements are written with -/

/-- The exact difference `end - start` of an item, an integer that need not fit
in an int64; a date-time that does not parse counts as the zero time. -/
def Runtime.exactDiff (rt : Runtime) (item : Event) : Int :=
  rt.parseIgnoringError item.End.DateTime - rt.parseIgnoringError item.Start.DateTime

/-- The sum of `f` over the records that have both date-times and the summary
`label`. -/
def labelTotal (f : Event → Int) (label : String) (records : List Event) : Int :=
  ((records.filter (fun e => decide (dated e ∧ e.Summary = label))).map f).sum

/-- Both date-times of the record are non-empty and parse as RFC3339. -/
def Runtime.valid (rt : Runtime) (e : Event) : Prop :=
  dated e ∧ (rt.Parse e.Start.DateTime).isSome ∧ (rt.Parse e.End.DateTime).isSome

instance (rt : Runtime) (e : Event) : Decidable (rt.valid e) :=
  inferInstanceAs (Decidable
    (dated e ∧ (rt.Parse e.Start.DateTime).isSome ∧ (rt.Parse e.End.DateTime).isSome))

/-- The sum of `end - start` over the records with the summary `label` whose
date-times are both non-empty valid RFC3339 timestamps. -/
def Runtime.validTotal (rt : Runtime) (label : String) (records : List Event) : Int :=
  ((records.filter (fun e => decide (rt.valid e ∧ e.Summary = label))).map rt.exactDiff).sum

/-- All records of a sequence of pages, in the order of arrival. -/
def recordsOf (pages : List Events) : List Event := pages.flatMap Events.Items

/-- The number of distinct summaries among the records that have both
date-times. -/
def distinctLabels (records : List Event) : Nat :=
  (((records.filter (fun e => decide (dated e))).map Event.Summary).dedup).length

/-- A text cut at its line feeds: each line feed ends a line, and characters
after the last line feed form a last line. -/
def textLines (text : List Char) : List (List Char) :=
  text.foldr (fun c lines =>
    if c = '\n' then [] :: lines
    else match lines with
      | [] => [[c]]
      | line :: lines => (c :: line) :: lines) []

/-! ## Example inputs -/

/-- One page, three meetings of 15, 15 and 30 minutes under one summary. -/
def standupPage : Events :=
  ⟨[⟨"Standup", ⟨"2024-03-01T09:00:00Z"⟩, ⟨"2024-03-01T09:15:00Z"⟩⟩,
    ⟨"Standup", ⟨"2024-03-04T09:00:00Z"⟩, ⟨"2024-03-04T09:15:00Z"⟩⟩,
    ⟨"Standup", ⟨"2024-03-05T09:00:00+09:00"⟩, ⟨"2024-03-05T09:30:00+09:00"⟩⟩], ""⟩

/-- A first page that carries a continuation token. -/
def firstPage : Events :=
  ⟨[⟨"Review", ⟨"2024-02-01T13:00:00Z"⟩, ⟨"2024-02-01T15:00:00Z"⟩⟩,
    ⟨"Holiday", ⟨""⟩, ⟨""⟩⟩,
    ⟨"Standup", ⟨"2024-02-02T09:00:00Z"⟩, ⟨"2024-02-02T09:15:00Z"⟩⟩], "token-2"⟩

/-- A page of `n` one-minute events with the summaries `event i`, `i` counted
from `first`. -/
def numberedPage (first n : Nat) (token : String) : Events :=
  ⟨(List.range n).map (fun i =>
      ⟨"event " ++ itoa (first + i), ⟨"2024-03-01T09:00:00Z"⟩, ⟨"2024-03-01T09:01:00Z"⟩⟩),
    token⟩

/-- An event that ends an hour before it starts. -/
def backwardsPage : Events :=
  ⟨[⟨"Flight", ⟨"2024-03-01T10:00:00Z"⟩, ⟨"2024-03-01T09:00:00Z"⟩⟩], ""⟩

/-- Two events of 200 years each. -/
def centuriesPage : Events :=
  ⟨[⟨"Era", ⟨"1800-01-01T00:00:00Z"⟩, ⟨"2000-01-01T00:00:00Z"⟩⟩,
    ⟨"Era", ⟨"1800-01-01T00:00:00Z"⟩, ⟨"2000-01-01T00:00:00Z"⟩⟩], ""⟩

/-- An event whose start is not an RFC3339 date-time and whose end lies in the
year 100. -/
def unparsedPage : Events :=
  ⟨[⟨"Jubilee", ⟨"garbage"⟩, ⟨"0100-01-01T00:00:00Z"⟩⟩], ""⟩

/-- An event whose start is not an RFC3339 date-time. -/
def unparsedItem : Event :=
  ⟨"Lunch", ⟨"garbage"⟩, ⟨"2024-03-01T13:00:00Z"⟩⟩

/-- An event whose summary holds a line feed. -/
def twoLinePage : Events :=
  ⟨[⟨"Lunch\nwith Ann", ⟨"2024-03-01T12:00:00Z"⟩, ⟨"2024-03-01T13:00:00Z"⟩⟩], ""⟩

/-! ## The accumulator: lemmas -/

theorem SumMap.get_set (m : SumMap) (k : String) (v : Duration) (k' : String) :
    SumMap.get (SumMap.set m k v) k' = if k = k' then v else SumMap.get m k' := by
  induction m with
  | nil => simp [SumMap.set, SumMap.get]
  | cons p m ih =>
    obtain ⟨a, b⟩ := p
    by_cases hak : a = k
    · subst hak
      by_cases hkk : a = k' <;> simp [SumMap.set, SumMap.get, hkk]
    · by_cases hkk : k = k'
      · subst hkk
        simp [SumMap.set, SumMap.get, hak, ih]
      · simp [SumMap.set, SumMap.get, hak, ih, hkk]

theorem SumMap.keys_set (m : SumMap) (k : String) (v : Duration) :
    SumMap.keys (SumMap.set m k v) =
      if k ∈ SumMap.keys m then SumMap.keys m else SumMap.keys m ++ [k] := by
  induction m with
  | nil => simp [SumMap.set, SumMap.keys]
  | cons p m ih =>
    obtain ⟨a, b⟩ := p
    by_cases hak : a = k
    · subst hak
      simp [SumMap.set, SumMap.keys]
    · have hka : ¬ k = a := fun h => hak h.symm
      simp only [SumMap.keys] at ih
      by_cases hmem : k ∈ List.map Prod.fst m
      · simp [SumMap.set, SumMap.keys, hak, hka, hmem, ih]
      · simp [SumMap.set, SumMap.keys, hak, hka, hmem, ih]

theorem SumMap.mem_keys_set (m : SumMap) (k : String) (v : Duration) (k' : String) :
    k' ∈ SumMap.keys (SumMap.set m k v) ↔ k' ∈ SumMap.keys m ∨ k' = k := by
  rw [SumMap.keys_set]
  split
  · rename_i h
    constructor
    · exact Or.inl
    · rintro (h' | rfl)
      · exact h'
      · exact h
  · simp

theorem SumMap.nodup_keys_set (m : SumMap) (k : String) (v : Duration)
    (h : (SumMap.keys m).Nodup) : (SumMap.keys (SumMap.set m k v)).Nodup := by
  rw [SumMap.keys_set]
  split
  · exact h
  · rename_i hk
    exact List.Nodup.append h (List.nodup_singleton k) (by simpa using hk)

theorem SumMap.mem_of_nodup (m : SumMap) (h : (SumMap.keys m).Nodup) (k : String)
    (v : Duration) : (k, v) ∈ m ↔ k ∈ SumMap.keys m ∧ SumMap.get m k = v := by
  induction m with
  | nil => simp [SumMap.keys]
  | cons p m ih =>
    obtain ⟨a, b⟩ := p
    simp only [SumMap.keys, List.map_cons, List.nodup_cons] at h
    have ih' := ih h.2
    simp only [SumMap.keys] at ih'
    by_cases hak : a = k
    · subst hak
      have hnot : ∀ w, (a, w) ∉ m := fun w hw => h.1 (List.mem_map.2 ⟨(a, w), hw, rfl⟩)
      simp [SumMap.keys, SumMap.get, hnot]
      exact eq_comm
    · have hka : ¬ k = a := fun h => hak h.symm
      simp [SumMap.keys, SumMap.get, hak, hka, ih']

/-! ## The item loop: lemmas -/

theorem addItems_nil (rt : Runtime) (sums : SumMap) : addItems rt sums [] = sums := rfl

theorem addItems_cons (rt : Runtime) (sums : SumMap) (e : Event) (l : List Event) :
    addItems rt sums (e :: l) = addItems rt (addItem rt sums e) l := rfl

theorem addItems_append (rt : Runtime) (sums : SumMap) (l₁ l₂ : List Event) :
    addItems rt sums (l₁ ++ l₂) = addItems rt (addItems rt sums l₁) l₂ := by
  simp [addItems, List.foldl_append]

theorem addItem_of_not_dated (rt : Runtime) (sums : SumMap) (e : Event) (h : ¬ dated e) :
    addItem rt sums e = sums := by
  unfold dated at h
  simp only [not_not] at h
  simp [addItem, h]

theorem addItem_of_dated (rt : Runtime) (sums : SumMap) (e : Event) (h : dated e) :
    addItem rt sums e =
      sums.set e.Summary (wrapInt64 (sums.get e.Summary + rt.itemDuration e)) := by
  unfold dated at h
  simp [addItem, h]

theorem nodup_keys_addItem (rt : Runtime) (sums : SumMap) (e : Event)
    (h : (SumMap.keys sums).Nodup) : (SumMap.keys (addItem rt sums e)).Nodup := by
  by_cases hd : dated e
  · rw [addItem_of_dated rt sums e hd]
    exact SumMap.nodup_keys_set _ _ _ h
  · rw [addItem_of_not_dated rt sums e hd]
    exact h

theorem nodup_keys_addItems (rt : Runtime) (items : List Event) (sums : SumMap)
    (h : (SumMap.keys sums).Nodup) : (SumMap.keys (addItems rt sums items)).Nodup := by
  induction items generalizing sums with
  | nil => exact h
  | cons e l ih => exact ih _ (nodup_keys_addItem rt sums e h)

theorem mem_keys_addItem (rt : Runtime) (sums : SumMap) (e : Event) (k : String) :
    k ∈ SumMap.keys (addItem rt sums e) ↔
      k ∈ SumMap.keys sums ∨ (dated e ∧ e.Summary = k) := by
  by_cases hd : dated e
  · rw [addItem_of_dated rt sums e hd, SumMap.mem_keys_set]
    simp [hd, eq_comm]
  · rw [addItem_of_not_dated rt sums e hd]
    simp [hd]

theorem mem_keys_addItems (rt : Runtime) (items : List Event) (sums : SumMap) (k : String) :
    k ∈ SumMap.keys (addItems rt sums items) ↔
      k ∈ SumMap.keys sums ∨ ∃ e ∈ items, dated e ∧ e.Summary = k := by
  induction items generalizing sums with
  | nil => simp [addItems_nil]
  | cons e l ih =>
    rw [addItems_cons, ih, mem_keys_addItem]
    simp only [List.mem_cons, exists_eq_or_imp]
    tauto

theorem get_addItem (rt : Runtime) (sums : SumMap) (e : Event) (k : String) :
    SumMap.get (addItem rt sums e) k =
      if dated e ∧ e.Summary = k then wrapInt64 (SumMap.get sums k + rt.itemDuration e)
      else SumMap.get sums k := by
  by_cases hd : dated e
  · rw [addItem_of_dated rt sums e hd, SumMap.get_set]
    by_cases hk : e.Summary = k
    · subst hk
      simp [hd]
    · simp [hd, hk]
  · rw [addItem_of_not_dated rt sums e hd]
    simp [hd]

/-! ## int64 arithmetic: lemmas -/

theorem wrapInt64_of_inRange (x : Int) (h : InRange x) : wrapInt64 x = x := by
  unfold InRange minDuration maxDuration at h
  unfold wrapInt64
  norm_num at h ⊢
  omega

theorem Time.Sub_of_inRange (t u : Int) (h : InRange (t - u)) : Time.Sub t u = t - u := by
  unfold InRange at h
  unfold Time.Sub
  rw [if_neg (not_lt.2 h.1), if_neg (not_lt.2 h.2)]

theorem Time.Sub_nonneg (t u : Int) (h : u ≤ t) : 0 ≤ Time.Sub t u := by
  unfold Time.Sub minDuration maxDuration
  unfold Time Duration at *
  split_ifs with h1 h2
  · norm_num at h1
    omega
  · norm_num
  · omega

theorem Time.Sub_inRange (t u : Int) : InRange (Time.Sub t u) := by
  unfold Time.Sub InRange minDuration maxDuration
  unfold Time Duration at *
  split_ifs with h1 h2
  · norm_num
  · norm_num
  · norm_num at h1 h2 ⊢
    omega

/-! ## Totals: lemmas -/

theorem labelTotal_nil (f : Event → Int) (label : String) : labelTotal f label [] = 0 := rfl

theorem labelTotal_append (f : Event → Int) (label : String) (l₁ l₂ : List Event) :
    labelTotal f label (l₁ ++ l₂) = labelTotal f label l₁ + labelTotal f label l₂ := by
  simp [labelTotal, List.filter_append, List.map_append, List.sum_append]

theorem labelTotal_singleton (f : Event → Int) (label : String) (e : Event) :
    labelTotal f label [e] = if dated e ∧ e.Summary = label then f e else 0 := by
  by_cases h : dated e ∧ e.Summary = label
  · simp [labelTotal, List.filter, h]
  · simp [labelTotal, List.filter, h]

theorem labelTotal_perm (f : Event → Int) (label : String) {l₁ l₂ : List Event}
    (h : l₁.Perm l₂) : labelTotal f label l₁ = labelTotal f label l₂ := by
  unfold labelTotal
  exact ((h.filter _).map f).sum_eq

theorem labelTotal_congr (f g : Event → Int) (label : String) (l : List Event)
    (h : ∀ e ∈ l, dated e → f e = g e) : labelTotal f label l = labelTotal g label l := by
  unfold labelTotal
  congr 1
  apply List.map_congr_left
  intro e he
  rw [List.mem_filter] at he
  exact h e he.1 (of_decide_eq_true he.2).1

theorem labelTotal_nonneg (f : Event → Int) (label : String) (l : List Event)
    (h : ∀ e ∈ l, dated e → 0 ≤ f e) : 0 ≤ labelTotal f label l := by
  unfold labelTotal
  apply List.sum_nonneg
  intro x hx
  rw [List.mem_map] at hx
  obtain ⟨e, he, rfl⟩ := hx
  rw [List.mem_filter] at he
  exact h e he.1 (of_decide_eq_true he.2).1

/-- While no running total leaves the int64 range, the map holds the totals. -/
theorem get_addItems_eq_total (rt : Runtime) (records : List Event)
    (h : ∀ n label, InRange (labelTotal rt.itemDuration label (records.take n)))
    (label : String) :
    SumMap.get (addItems rt [] records) label = labelTotal rt.itemDuration label records := by
  induction records using List.reverseRecOn generalizing label with
  | nil => rfl
  | append_singleton l e ih =>
    have hl : ∀ n label, InRange (labelTotal rt.itemDuration label (l.take n)) := by
      intro n label
      by_cases hn : n ≤ l.length
      · have := h n label
        rwa [List.take_append_of_le_length hn] at this
      · have := h l.length label
        rw [List.take_append_of_le_length (Nat.le_refl _), List.take_length] at this
        rwa [List.take_of_length_le (Nat.le_of_lt (Nat.lt_of_not_le hn))]
    have hall := h (l.length + 1) label
    rw [List.take_of_length_le (by simp)] at hall
    rw [addItems_append, addItems_cons, addItems_nil, get_addItem, ih hl, labelTotal_append,
      labelTotal_singleton]
    rw [labelTotal_append, labelTotal_singleton] at hall
    split
    · rename_i hd
      rw [if_pos hd] at hall
      exact wrapInt64_of_inRange _ hall
    · simp

/-! ## The fetch loop: lemmas -/

theorem recordsOf_cons (p : Events) (pages : List Events) :
    recordsOf (p :: pages) = p.Items ++ recordsOf pages := by
  simp [recordsOf]

theorem recordsOf_singleton (p : Events) : recordsOf [p] = p.Items := by
  simp [recordsOf]

theorem listCall_of_ne (tok : String) (h : tok ≠ "") : listCall tok = ⟨some tok⟩ := by
  simp [listCall, h]

/-- The loop on a sequence of pages of which the last one is the first without a
continuation token. -/
theorem fetchLoop_pages (rt : Runtime) (pre : List Events) (last : Events)
    (rest : List (Except GoError Events))
    (hpre : ∀ p ∈ pre, p.NextPageToken ≠ "") (hlast : last.NextPageToken = "")
    (tok : String) (sums : SumMap) (calls : List ListCall) :
    fetchLoop rt ((pre ++ [last]).map Except.ok ++ rest) tok sums calls =
      .done (calls ++ listCall tok :: pre.map (fun p => ⟨some p.NextPageToken⟩))
        (addItems rt sums (recordsOf (pre ++ [last]))) := by
  induction pre generalizing tok sums calls with
  | nil =>
    simp [fetchLoop, hlast, recordsOf_singleton]
  | cons p pre ih =>
    have hp : p.NextPageToken ≠ "" := hpre p (by simp)
    have hpre' : ∀ q ∈ pre, q.NextPageToken ≠ "" := fun q hq => hpre q (by simp [hq])
    have := ih hpre' p.NextPageToken (addItems rt sums p.Items) (calls ++ [listCall tok])
    have e : ((p :: pre) ++ [last]).map Except.ok ++ rest =
        Except.ok p :: ((pre ++ [last]).map Except.ok ++ rest) := by simp
    have e2 : recordsOf (p :: pre ++ [last]) = p.Items ++ recordsOf (pre ++ [last]) :=
      recordsOf_cons p (pre ++ [last])
    rw [e, fetchLoop, if_pos hp, this, listCall_of_ne _ hp, e2, addItems_append]
    simp

/-- The loop on a sequence of pages followed by a failing request. -/
theorem fetchLoop_error (rt : Runtime) (pre : List Events) (err : GoError)
    (rest : List (Except GoError Events))
    (hpre : ∀ p ∈ pre, p.NextPageToken ≠ "")
    (tok : String) (sums : SumMap) (calls : List ListCall) :
    fetchLoop rt (pre.map Except.ok ++ Except.error err :: rest) tok sums calls =
      .failed (calls ++ listCall tok :: pre.map (fun p => ⟨some p.NextPageToken⟩))
        (.wrap "retrieve the user's events: " err) := by
  induction pre generalizing tok sums calls with
  | nil =>
    simp [fetchLoop]
  | cons p pre ih =>
    have hp : p.NextPageToken ≠ "" := hpre p (by simp)
    have hpre' : ∀ q ∈ pre, q.NextPageToken ≠ "" := fun q hq => hpre q (by simp [hq])
    have := ih hpre' p.NextPageToken (addItems rt sums p.Items) (calls ++ [listCall tok])
    have e : (p :: pre).map Except.ok ++ Except.error err :: rest =
        Except.ok p :: (pre.map Except.ok ++ Except.error err :: rest) := by simp
    rw [e, fetchLoop, if_pos hp, this, listCall_of_ne _ hp]
    simp

/-- Every sequence of responses has one of three shapes: pages up to a first
one without continuation token, pages with tokens up to a failing request, or
only pages with tokens. -/
theorem responses_cases (responses : List (Except GoError Events)) :
    (∃ (pre : List Events) (last : Events) (rest : List (Except GoError Events)),
      responses = (pre ++ [last]).map Except.ok ++ rest ∧
      (∀ p ∈ pre, p.NextPageToken ≠ "") ∧ last.NextPageToken = "") ∨
    (∃ (pre : List Events) (err : GoError) (rest : List (Except GoError Events)),
      responses = pre.map Except.ok ++ Except.error err :: rest ∧
      (∀ p ∈ pre, p.NextPageToken ≠ "")) ∨
    (∃ pre : List Events,
      responses = pre.map Except.ok ∧ (∀ p ∈ pre, p.NextPageToken ≠ "")) := by
  induction responses with
  | nil => exact Or.inr (Or.inr ⟨[], rfl, by simp⟩)
  | cons r responses ih =>
    cases r with
    | error err => exact Or.inr (Or.inl ⟨[], err, responses, rfl, by simp⟩)
    | ok page =>
      by_cases hp : page.NextPageToken = ""
      · exact Or.inl ⟨[], page, responses, rfl, by simp, hp⟩
      · rcases ih with ⟨pre, last, rest, h, hpre, hlast⟩ | ⟨pre, err, rest, h, hpre⟩ |
          ⟨pre, h, hpre⟩
        · refine Or.inl ⟨page :: pre, last, rest, by simp [h], ?_, hlast⟩
          intro p hmem
          rcases List.mem_cons.1 hmem with rfl | hmem
          · exact hp
          · exact hpre p hmem
        · refine Or.inr (Or.inl ⟨page :: pre, err, rest, by simp [h], ?_⟩)
          intro p hmem
          rcases List.mem_cons.1 hmem with rfl | hmem
          · exact hp
          · exact hpre p hmem
        · refine Or.inr (Or.inr ⟨page :: pre, by simp [h], ?_⟩)
          intro p hmem
          rcases List.mem_cons.1 hmem with rfl | hmem
          · exact hp
          · exact hpre p hmem

/-- The loop on pages that all carry a continuation token: the next request is
issued and waits for its response. -/
theorem fetchLoop_blocked (rt : Runtime) (pre : List Events)
    (hpre : ∀ p ∈ pre, p.NextPageToken ≠ "")
    (tok : String) (sums : SumMap) (calls : List ListCall) :
    fetchLoop rt (pre.map Except.ok) tok sums calls =
      .blocked (calls ++ listCall tok :: pre.map (fun p => ⟨some p.NextPageToken⟩)) := by
  induction pre generalizing tok sums calls with
  | nil =>
    simp [fetchLoop]
  | cons p pre ih =>
    have hp : p.NextPageToken ≠ "" := hpre p (by simp)
    have hpre' : ∀ q ∈ pre, q.NextPageToken ≠ "" := fun q hq => hpre q (by simp [hq])
    have := ih hpre' p.NextPageToken (addItems rt sums p.Items) (calls ++ [listCall tok])
    rw [List.map_cons, fetchLoop, if_pos hp, this, listCall_of_ne _ hp]
    simp

/-- A run over a complete sequence of pages. -/
theorem ThisYear_pages (rt : Runtime) (pre : List Events) (last : Events)
    (rest : List (Except GoError Events))
    (hpre : ∀ p ∈ pre, p.NextPageToken ≠ "") (hlast : last.NextPageToken = "") :
    ThisYear rt ((pre ++ [last]).map Except.ok ++ rest) =
      ⟨⟨none⟩ :: pre.map (fun p => ⟨some p.NextPageToken⟩),
        rank rt (addItems rt [] (recordsOf (pre ++ [last]))),
        printFrom 0 (rank rt (addItems rt [] (recordsOf (pre ++ [last])))),
        some none⟩ := by
  unfold ThisYear
  rw [fetchLoop_pages rt pre last rest hpre hlast]
  simp [listCall]

/-- A run in which every page so far carries a continuation token has not
returned: it has issued the next request and waits for the response. -/
theorem ThisYear_blocked (rt : Runtime) (pre : List Events)
    (hpre : ∀ p ∈ pre, p.NextPageToken ≠ "") :
    ThisYear rt (pre.map Except.ok) =
      ⟨⟨none⟩ :: pre.map (fun p => ⟨some p.NextPageToken⟩), [], "", none⟩ := by
  unfold ThisYear
  rw [fetchLoop_blocked rt pre hpre]
  simp [listCall]

/-- The slice `results` of any run is empty or the ranking of some map whose
keys are distinct. -/
theorem results_eq_rank (rt : Runtime) (responses : List (Except GoError Events)) :
    (ThisYear rt responses).results = [] ∨
      ∃ sums, (ThisYear rt responses).results = rank rt sums ∧
        (ThisYear rt responses).stdout = printFrom 0 (rank rt sums) := by
  unfold ThisYear
  split
  · exact Or.inl rfl
  · exact Or.inl rfl
  · exact Or.inr ⟨_, rfl, rfl⟩

/-! ## The ranking: lemmas -/

theorem less_strictWeak : StrictWeak less := by
  constructor
  · intro a b h
    simp only [less, gt_iff_lt, decide_eq_true_eq, decide_eq_false_iff_not, not_lt] at h ⊢
    exact le_of_lt h
  · intro a b c h₁ h₂
    simp only [less, gt_iff_lt, decide_eq_false_iff_not, not_lt] at h₁ h₂ ⊢
    exact le_trans h₁ h₂

/-- The ranking is the first 30 elements of a sorted rearrangement of the
entries of the map. -/
theorem rank_spec (rt : Runtime) (sums : SumMap) :
    ∃ all : List result,
      all.Perm (sums.map (fun p => result.mk p.1 p.2)) ∧
      all.Pairwise (fun a b => b.Duration ≤ a.Duration) ∧
      rank rt sums = all.take 30 := by
  refine ⟨rt.sortSlice ((rt.rangeMap sums).map (fun p => result.mk p.1 p.2)) less, ?_, ?_, ?_⟩
  · exact (rt.sortSlice_perm _ _).trans ((rt.rangeMap_perm sums).map _)
  · refine (rt.sortSlice_sorted _ less less_strictWeak).imp ?_
    intro a b h
    simpa [less] using h
  · unfold rank max
    simp only
    split
    · rfl
    · rename_i h
      exact (List.take_of_length_le (Nat.le_of_not_lt h)).symm

theorem rank_sorted (rt : Runtime) (sums : SumMap) :
    (rank rt sums).Pairwise (fun a b => b.Duration ≤ a.Duration) := by
  obtain ⟨all, -, hsorted, heq⟩ := rank_spec rt sums
  rw [heq]
  exact hsorted.sublist (List.take_sublist _ _)

theorem rank_length (rt : Runtime) (sums : SumMap) :
    (rank rt sums).length = min sums.length 30 := by
  obtain ⟨all, hperm, -, heq⟩ := rank_spec rt sums
  rw [heq, List.length_take, hperm.length_eq, List.length_map, Nat.min_comm]

theorem mem_rank (rt : Runtime) (sums : SumMap) (r : result) (h : r ∈ rank rt sums) :
    (r.Summary, r.Duration) ∈ sums := by
  obtain ⟨all, hperm, -, heq⟩ := rank_spec rt sums
  rw [heq] at h
  have := hperm.subset (List.mem_of_mem_take h)
  rw [List.mem_map] at this
  obtain ⟨p, hp, rfl⟩ := this
  exact hp

theorem rank_nodup (rt : Runtime) (sums : SumMap) (h : (SumMap.keys sums).Nodup) :
    ((rank rt sums).map result.Summary).Nodup := by
  obtain ⟨all, hperm, -, heq⟩ := rank_spec rt sums
  rw [heq]
  have h1 : (all.map result.Summary).Perm (SumMap.keys sums) := by
    have := hperm.map result.Summary
    simpa [SumMap.keys, Function.comp_def] using this
  have h2 : (all.map result.Summary).Nodup := h1.nodup_iff.2 h
  exact h2.sublist ((List.take_sublist _ _).map _)

theorem length_addItems (rt : Runtime) (records : List Event) :
    (addItems rt [] records).length = distinctLabels records := by
  have h1 : (SumMap.keys (addItems rt [] records)).Nodup :=
    nodup_keys_addItems rt records [] (by simp [SumMap.keys])
  have h2 : (((records.filter (fun e => decide (dated e))).map Event.Summary).dedup).Nodup :=
    List.nodup_dedup _
  have h3 : (SumMap.keys (addItems rt [] records)).Perm
      (((records.filter (fun e => decide (dated e))).map Event.Summary).dedup) := by
    rw [List.perm_ext_iff_of_nodup h1 h2]
    intro k
    rw [mem_keys_addItems, List.mem_dedup, List.mem_map]
    simp only [SumMap.keys, List.map_nil, List.not_mem_nil, false_or, List.mem_filter,
      decide_eq_true_eq]
    constructor
    · rintro ⟨e, he, hd, hk⟩
      exact ⟨e, ⟨he, hd⟩, hk⟩
    · rintro ⟨e, ⟨he, hd⟩, hk⟩
      exact ⟨e, he, hd, hk⟩
  have := h3.length_eq
  simpa [SumMap.keys, distinctLabels] using this

/-- Entries beyond the cut are not larger than the entries kept. -/
theorem rank_keeps_largest (rt : Runtime) (sums : SumMap) (p : String × Duration)
    (hp : p ∈ sums) (hout : p.1 ∉ (rank rt sums).map result.Summary) :
    ∀ r ∈ rank rt sums, p.2 ≤ r.Duration := by
  obtain ⟨all, hperm, hsorted, heq⟩ := rank_spec rt sums
  rw [heq] at hout ⊢
  have hmem : result.mk p.1 p.2 ∈ all := hperm.symm.subset (List.mem_map.2 ⟨p, hp, rfl⟩)
  rw [← List.take_append_drop 30 all] at hmem hsorted
  rcases List.mem_append.1 hmem with h | h
  · exact absurd (List.mem_map.2 ⟨_, h, rfl⟩) hout
  · intro r hr
    exact (List.pairwise_append.1 hsorted).2.2 r hr _ h

/-! ## The printed text: lemmas -/

theorem digit_ne_lf (d : Nat) (h : d < 10) : Char.ofNat (d + 48) ≠ '\n' := by
  interval_cases d <;> decide

theorem noLF_fmtIntLoop (fuel v : Nat) (buf : List Char) (h : '\n' ∉ buf) :
    '\n' ∉ fmtIntLoop fuel v buf := by
  induction fuel generalizing v buf with
  | zero => exact h
  | succ fuel ih =>
    unfold fmtIntLoop
    split
    · apply ih
      intro hmem
      rcases List.mem_cons.1 hmem with h' | h'
      · exact digit_ne_lf (v % 10) (Nat.mod_lt _ (by decide)) h'.symm
      · exact h h'
    · exact h

theorem noLF_fmtInt (buf : List Char) (v : Nat) (h : '\n' ∉ buf) : '\n' ∉ fmtInt buf v := by
  unfold fmtInt
  split
  · intro hmem
    rcases List.mem_cons.1 hmem with h' | h'
    · exact absurd h' (by decide)
    · exact h h'
  · exact noLF_fmtIntLoop _ _ _ h

theorem noLF_fmtFracLoop (prec v : Nat) (print : Bool) (buf : List Char) (h : '\n' ∉ buf) :
    '\n' ∉ (fmtFracLoop prec v print buf).1 := by
  induction prec generalizing v print buf with
  | zero => exact h
  | succ prec ih =>
    unfold fmtFracLoop
    apply ih
    split
    · intro hmem
      rcases List.mem_cons.1 hmem with h' | h'
      · exact digit_ne_lf (v % 10) (Nat.mod_lt _ (by decide)) h'.symm
      · exact h h'
    · exact h

theorem noLF_fmtFrac (buf : List Char) (v prec : Nat) (h : '\n' ∉ buf) :
    '\n' ∉ (fmtFrac buf v prec).1 := by
  have := noLF_fmtFracLoop prec v false buf h
  unfold fmtFrac
  simp only
  split
  · intro hmem
    rcases List.mem_cons.1 hmem with h' | h'
    · exact absurd h' (by decide)
    · exact this h'
  · exact this

theorem noLF_formatAbs (u : Nat) : '\n' ∉ Duration.formatAbs u := by
  have hs : '\n' ∉ ['s'] := by decide
  have hns : '\n' ∉ ['n', 's'] := by decide
  have hus : '\n' ∉ ['µ', 's'] := by decide
  have hms : '\n' ∉ ['m', 's'] := by decide
  have hcons : ∀ (c : Char) (l : List Char), c ≠ '\n' → '\n' ∉ l → '\n' ∉ c :: l := by
    intro c l hc hl hmem
    rcases List.mem_cons.1 hmem with h' | h'
    · exact hc h'.symm
    · exact hl h'
  have h1 := noLF_fmtFrac ['s'] u 9 hs
  have h2 := noLF_fmtInt (fmtFrac ['s'] u 9).1 ((fmtFrac ['s'] u 9).2 % 60) h1
  have h3 := noLF_fmtInt _ ((fmtFrac ['s'] u 9).2 / 60 % 60) (hcons 'm' _ (by decide) h2)
  have h4 := noLF_fmtInt _ ((fmtFrac ['s'] u 9).2 / 60 / 60) (hcons 'h' _ (by decide) h3)
  unfold Duration.formatAbs
  simp only
  split_ifs
  · decide
  · exact noLF_fmtInt _ _ hns
  · exact noLF_fmtInt _ _ (noLF_fmtFrac _ _ _ hus)
  · exact noLF_fmtInt _ _ (noLF_fmtFrac _ _ _ hms)
  · exact h4
  · exact h3
  · exact h2

theorem noLF_String (d : Duration) : '\n' ∉ (Duration.String d).data := by
  unfold Duration.String
  simp only
  split
  · intro hmem
    rcases List.mem_cons.1 hmem with h' | h'
    · exact absurd h' (by decide)
    · exact noLF_formatAbs _ h'
  · exact noLF_formatAbs _

theorem noLF_itoa (n : Nat) : '\n' ∉ (itoa n).data := by
  unfold itoa
  exact noLF_fmtInt [] n (by simp)

theorem textLines_line (line rest : List Char) (h : '\n' ∉ line) :
    textLines (line ++ '\n' :: rest) = line :: textLines rest := by
  induction line with
  | nil => simp [textLines]
  | cons c line ih =>
    have hc : c ≠ '\n' := fun e => h (by simp [e])
    have hl : '\n' ∉ line := fun e => h (by simp [e])
    have := ih hl
    unfold textLines at this ⊢
    simp only [List.cons_append, List.foldr_cons, this, hc, if_false]

theorem printLine_data (i : Nat) (r : result) :
    (printLine i r).data =
      (itoa (i + 1) ++ ". " ++ r.Summary ++ ": " ++ r.Duration.String).data ++ ['\n'] := by
  simp [printLine, String.data_append]

theorem noLF_line (i : Nat) (r : result) (h : '\n' ∉ r.Summary.data) :
    '\n' ∉ (itoa (i + 1) ++ ". " ++ r.Summary ++ ": " ++ r.Duration.String).data := by
  simp only [String.data_append, List.mem_append, not_or]
  exact ⟨⟨⟨⟨noLF_itoa _, by decide⟩, h⟩, by decide⟩, noLF_String _⟩

/-- The printed text of label that hold no line feed, line by line. -/
theorem textLines_printFrom (results : List result) (i : Nat)
    (h : ∀ r ∈ results, '\n' ∉ r.Summary.data) :
    (textLines (printFrom i results).data).length = results.length ∧
    ∀ k (hk : k < results.length), (textLines (printFrom i results).data)[k]? =
      some (itoa (i + k + 1) ++ ". " ++ results[k].Summary ++ ": "
        ++ results[k].Duration.String).data := by
  induction results generalizing i with
  | nil =>
    refine ⟨by simp [printFrom, textLines], ?_⟩
    intro k hk
    simp at hk
  | cons r results ih =>
    have hr : '\n' ∉ r.Summary.data := h r (by simp)
    have hrest : ∀ r' ∈ results, '\n' ∉ r'.Summary.data := fun r' hr' => h r' (by simp [hr'])
    obtain ⟨ih1, ih2⟩ := ih (i + 1) hrest
    have e : textLines (printFrom i (r :: results)).data =
        (itoa (i + 1) ++ ". " ++ r.Summary ++ ": " ++ r.Duration.String).data ::
          textLines (printFrom (i + 1) results).data := by
      rw [printFrom, String.data_append, printLine_data, List.append_assoc,
        List.singleton_append]
      exact textLines_line _ _ (noLF_line i r hr)
    rw [e]
    refine ⟨by simp [ih1], ?_⟩
    intro k hk
    cases k with
    | zero => simp
    | succ k =>
      have hk' : k < results.length := by simpa using hk
      have := ih2 k hk'
      simp only [List.getElem?_cons_succ, List.getElem_cons_succ, this]
      have e2 : i + 1 + k + 1 = i + (k + 1) + 1 := by omega
      rw [e2]

/-! ## Totals and the report: lemmas -/

theorem parseIgnoringError_eq (rt : Runtime) (s : String) :
    rt.parseIgnoringError s = (rt.Parse s).getD zeroTime := by
  unfold Runtime.parseIgnoringError
  cases rt.Parse s <;> rfl

theorem itemDuration_eq_exactDiff (rt : Runtime) (e : Event) (h : InRange (rt.exactDiff e)) :
    rt.itemDuration e = rt.exactDiff e :=
  Time.Sub_of_inRange _ _ h

/-- A property of the running totals that holds on the prefixes of the records
and for the summaries that occur holds for all lengths and all summaries. -/
theorem runningTotals_of_bounded (P : Int → Prop) (h0 : P 0) (f : Event → Int)
    (records : List Event)
    (h : ∀ n ∈ List.range (records.length + 1), ∀ e ∈ records,
      P (labelTotal f e.Summary (records.take n))) :
    ∀ n label, P (labelTotal f label (records.take n)) := by
  intro n label
  by_cases hl : ∃ e ∈ records, e.Summary = label
  · obtain ⟨e, he, rfl⟩ := hl
    by_cases hn : n ≤ records.length
    · exact h n (List.mem_range.2 (Nat.lt_succ_of_le hn)) e he
    · have := h records.length (List.mem_range.2 (Nat.lt_succ_self _)) e he
      rw [List.take_length] at this
      rwa [List.take_of_length_le (Nat.le_of_lt (Nat.lt_of_not_le hn))]
  · have : labelTotal f label (records.take n) = 0 := by
      unfold labelTotal
      rw [List.filter_eq_nil_iff.2]
      · rfl
      · intro e he hd
        exact hl ⟨e, List.mem_of_mem_take he, (of_decide_eq_true hd).2⟩
    rw [this]
    exact h0

theorem validTotal_eq_labelTotal (rt : Runtime) (label : String) (records : List Event)
    (h : ∀ e ∈ records, dated e → rt.valid e) :
    rt.validTotal label records = labelTotal rt.exactDiff label records := by
  unfold Runtime.validTotal labelTotal
  congr 2
  apply List.filter_congr
  intro e he
  by_cases hd : dated e
  · have hv := h e he hd
    simp [hd, hv]
  · have hv : ¬ rt.valid e := fun hv => hd hv.1
    simp [hd, hv]

/-- The durations in the report are the values of the map. -/
theorem report_duration (rt : Runtime) (records : List Event) (r : result)
    (hr : r ∈ rank rt (addItems rt [] records)) :
    r.Duration = SumMap.get (addItems rt [] records) r.Summary := by
  have hmem := mem_rank rt _ r hr
  have hnodup := nodup_keys_addItems rt records [] (by simp [SumMap.keys])
  exact (((SumMap.mem_of_nodup _ hnodup _ _).1 hmem).2).symm

/-! ## The claims -/

/-- C1, as amended: after a complete sequence of pages, and as long as no
difference `end - start` and no running total leaves the int64 range, the
duration of every report entry is the sum of `end - start` over all items, of
all pages, that carry the entry's summary and have a non-empty start and a
non-empty end date-time; a date-time that does not parse as RFC3339 enters this
sum as Go's zero time.  The sum is the same for every order of the items, and
when all the non-empty date-times parse it is the sum over the items with two
valid timestamps. -/
theorem C1_label_totals (rt : Runtime) (pre : List Events) (last : Events)
    (rest : List (Except GoError Events))
    (hpre : ∀ p ∈ pre, p.NextPageToken ≠ "") (hlast : last.NextPageToken = "")
    (hdiff : ∀ e ∈ recordsOf (pre ++ [last]), dated e → InRange (rt.exactDiff e))
    (hsum : ∀ n label,
      InRange (labelTotal rt.exactDiff label ((recordsOf (pre ++ [last])).take n))) :
    (∀ r ∈ (ThisYear rt ((pre ++ [last]).map Except.ok ++ rest)).results,
      r.Duration = labelTotal rt.exactDiff r.Summary (recordsOf (pre ++ [last]))) ∧
    (∀ label records, records.Perm (recordsOf (pre ++ [last])) →
      labelTotal rt.exactDiff label records =
        labelTotal rt.exactDiff label (recordsOf (pre ++ [last]))) ∧
    ((∀ e ∈ recordsOf (pre ++ [last]), dated e → rt.valid e) →
      ∀ r ∈ (ThisYear rt ((pre ++ [last]).map Except.ok ++ rest)).results,
        r.Duration = rt.validTotal r.Summary (recordsOf (pre ++ [last]))) := by
  have key : ∀ r ∈ (ThisYear rt ((pre ++ [last]).map Except.ok ++ rest)).results,
      r.Duration = labelTotal rt.exactDiff r.Summary (recordsOf (pre ++ [last])) := by
    rw [ThisYear_pages rt pre last rest hpre hlast]
    intro r hr
    have hcongr : ∀ n label,
        labelTotal rt.itemDuration label ((recordsOf (pre ++ [last])).take n) =
          labelTotal rt.exactDiff label ((recordsOf (pre ++ [last])).take n) := by
      intro n label
      apply labelTotal_congr
      intro e he hd
      exact itemDuration_eq_exactDiff rt e (hdiff e (List.mem_of_mem_take he) hd)
    rw [report_duration rt _ r hr, get_addItems_eq_total rt _ (fun n label => by
      rw [hcongr]; exact hsum n label)]
    have := hcongr (recordsOf (pre ++ [last])).length r.Summary
    rwa [List.take_length] at this
  refine ⟨key, ?_, ?_⟩
  · intro label records hperm
    exact labelTotal_perm _ _ hperm
  · intro hvalid r hr
    rw [key r hr, validTotal_eq_labelTotal rt _ _ hvalid]

/-- Witness of C1: three meetings of 15, 15 and 30 minutes give one hour. -/
theorem C1_label_totals_witness :
    (∀ r ∈ (ThisYear goRuntime (([] ++ [standupPage]).map Except.ok ++ [])).results,
      r.Duration = labelTotal goRuntime.exactDiff r.Summary (recordsOf ([] ++ [standupPage]))) ∧
    (ThisYear goRuntime (([] ++ [standupPage]).map Except.ok ++ [])).results =
      [⟨"Standup", 3600000000000⟩] :=
  ⟨(C1_label_totals goRuntime [] standupPage [] (by decide) (by decide) (by decide)
      (runningTotals_of_bounded InRange (by decide) _ _ (by decide))).1,
    by decide⟩

/-- Counterexample to C1 as stated: the start of the only item is not an RFC3339
date-time, so no item has two valid timestamps and the sum over such items
is 0, yet the report gives its summary the 99 years between Go's zero time and
the end of the item.  All differences and totals are inside the int64 range. -/
theorem C1_counterexample :
    (ThisYear goRuntime [Except.ok unparsedPage]).results
      = [⟨"Jubilee", 3124137600000000000⟩] ∧
    goRuntime.validTotal "Jubilee" (recordsOf [unparsedPage]) = 0 ∧
    InRange 3124137600000000000 ∧
    ¬ ∀ r ∈ (ThisYear goRuntime [Except.ok unparsedPage]).results,
      r.Duration = goRuntime.validTotal r.Summary (recordsOf [unparsedPage]) := by
  decide

/-- C2: when the service answers with the pages `pre ++ [last]`, every page of
`pre` with a continuation token and `last` without one, `ThisYear` issues
exactly one request per page, the first without a page token and each later one
with the token of the page before; the ranking is built from the map that holds
the items of all these pages; the call returns `nil`.  Responses that the
service would give after `last` are never asked for. -/
theorem C2_pagination (rt : Runtime) (pre : List Events) (last : Events)
    (rest : List (Except GoError Events))
    (hpre : ∀ p ∈ pre, p.NextPageToken ≠ "") (hlast : last.NextPageToken = "") :
    (ThisYear rt ((pre ++ [last]).map Except.ok ++ rest)).calls.length = (pre ++ [last]).length ∧
    (ThisYear rt ((pre ++ [last]).map Except.ok ++ rest)).calls =
      ⟨none⟩ :: pre.map (fun p => ⟨some p.NextPageToken⟩) ∧
    (ThisYear rt ((pre ++ [last]).map Except.ok ++ rest)).results =
      rank rt ((pre ++ [last]).foldl (fun sums page => addItems rt sums page.Items) []) ∧
    (ThisYear rt ((pre ++ [last]).map Except.ok ++ rest)).ret = some none := by
  rw [ThisYear_pages rt pre last rest hpre hlast]
  refine ⟨by simp, rfl, ?_, rfl⟩
  simp only
  congr 1
  generalize (pre ++ [last]) = pages
  generalize ([] : SumMap) = sums
  induction pages generalizing sums with
  | nil => rfl
  | cons page pages ih => rw [recordsOf_cons, addItems_append, List.foldl_cons, ih]

/-- Witness of C2: two pages, the first with the token `token-2`. -/
theorem C2_pagination_witness :
    (ThisYear goRuntime (([firstPage] ++ [standupPage]).map Except.ok ++ [])).calls.length
      = ([firstPage] ++ [standupPage]).length ∧
    (ThisYear goRuntime (([firstPage] ++ [standupPage]).map Except.ok ++ [])).calls =
      ⟨none⟩ :: [firstPage].map (fun p => ⟨some p.NextPageToken⟩) ∧
    (ThisYear goRuntime (([firstPage] ++ [standupPage]).map Except.ok ++ [])).results =
      rank goRuntime (([firstPage] ++ [standupPage]).foldl
        (fun sums page => addItems goRuntime sums page.Items) []) ∧
    (ThisYear goRuntime (([firstPage] ++ [standupPage]).map Except.ok ++ [])).ret = some none :=
  C2_pagination goRuntime [firstPage] standupPage [] (by decide) (by decide)

/-- C3: when the request that follows the pages `pre` (each with a continuation
token) fails with `err`, `ThisYear` returns an error that wraps `err` and whose
message is `retrieve the user's events: ` followed by the message of `err`; the
failing request is the last request issued; nothing is written to standard
output, and the print loop is not reached. -/
theorem C3_fetch_error (rt : Runtime) (pre : List Events) (err : GoError)
    (rest : List (Except GoError Events))
    (hpre : ∀ p ∈ pre, p.NextPageToken ≠ "") :
    (∃ e, (ThisYear rt (pre.map Except.ok ++ Except.error err :: rest)).ret = some (some e) ∧
      e.Unwrap = some err ∧ e.Error = "retrieve the user's events: " ++ err.Error) ∧
    (ThisYear rt (pre.map Except.ok ++ Except.error err :: rest)).calls =
      ⟨none⟩ :: pre.map (fun p => ⟨some p.NextPageToken⟩) ∧
    (ThisYear rt (pre.map Except.ok ++ Except.error err :: rest)).calls.length = pre.length + 1 ∧
    (ThisYear rt (pre.map Except.ok ++ Except.error err :: rest)).stdout = "" ∧
    (ThisYear rt (pre.map Except.ok ++ Except.error err :: rest)).results = [] := by
  unfold ThisYear
  rw [fetchLoop_error rt pre err rest hpre]
  refine ⟨⟨_, rfl, rfl, rfl⟩, ?_, ?_, rfl, rfl⟩
  · simp [listCall]
  · simp

/-- Witness of C3: the second request fails, and the page that the service
would have sent afterwards is never asked for. -/
theorem C3_fetch_error_witness :
    (ThisYear goRuntime ([firstPage].map Except.ok ++
      Except.error (GoError.plain "quota exceeded") :: [Except.ok standupPage])).ret =
      some (some (GoError.wrap "retrieve the user's events: " (GoError.plain "quota exceeded"))) ∧
    (ThisYear goRuntime ([firstPage].map Except.ok ++
      Except.error (GoError.plain "quota exceeded") :: [Except.ok standupPage])).calls =
      [⟨none⟩, ⟨some "token-2"⟩] ∧
    (ThisYear goRuntime ([firstPage].map Except.ok ++
      Except.error (GoError.plain "quota exceeded") :: [Except.ok standupPage])).stdout = "" :=
  have h := C3_fetch_error goRuntime [firstPage] (GoError.plain "quota exceeded")
    [Except.ok standupPage] (by decide)
  ⟨by decide, h.2.1, h.2.2.2.1⟩

/-- C4: in every run the slice `results` is sorted by duration, largest first:
of two adjacent entries, and of any two entries, the earlier one has a duration
that is at least the duration of the later one. -/
theorem C4_sorted (rt : Runtime) (responses : List (Except GoError Events)) :
    List.Chain' (fun a b => a.Duration ≥ b.Duration) (ThisYear rt responses).results ∧
    List.Pairwise (fun a b => a.Duration ≥ b.Duration) (ThisYear rt responses).results := by
  have h : List.Pairwise (fun a b => a.Duration ≥ b.Duration) (ThisYear rt responses).results := by
    rcases results_eq_rank rt responses with h | ⟨sums, h, -⟩
    · rw [h]
      exact List.Pairwise.nil
    · rw [h]
      exact rank_sorted rt sums
  exact ⟨h.chain', h⟩

/-- C5: after a complete sequence of pages the report has `min n 30` entries,
`n` being the number of distinct summaries among the items that have a start
and an end date-time: at most 30, and exactly `n` when `n ≤ 30`.  In no run at
all does the slice `results` hold more than 30 entries. -/
theorem C5_report_length (rt : Runtime) (pre : List Events) (last : Events)
    (rest : List (Except GoError Events))
    (hpre : ∀ p ∈ pre, p.NextPageToken ≠ "") (hlast : last.NextPageToken = "") :
    (ThisYear rt ((pre ++ [last]).map Except.ok ++ rest)).results.length =
      min (distinctLabels (recordsOf (pre ++ [last]))) 30 ∧
    (ThisYear rt ((pre ++ [last]).map Except.ok ++ rest)).results.length ≤ 30 ∧
    (distinctLabels (recordsOf (pre ++ [last])) ≤ 30 →
      (ThisYear rt ((pre ++ [last]).map Except.ok ++ rest)).results.length =
        distinctLabels (recordsOf (pre ++ [last]))) ∧
    (∀ responses, (ThisYear rt responses).results.length ≤ 30) := by
  refine ⟨?_, ?_, ?_, ?_⟩
  · rw [ThisYear_pages rt pre last rest hpre hlast]
    simp only
    rw [rank_length, length_addItems]
  · rw [ThisYear_pages rt pre last rest hpre hlast]
    simp only
    rw [rank_length]
    exact Nat.min_le_right _ _
  · intro h
    rw [ThisYear_pages rt pre last rest hpre hlast]
    simp only
    rw [rank_length, length_addItems]
    exact Nat.min_eq_left h
  · intro responses
    rcases results_eq_rank rt responses with h | ⟨sums, h, -⟩
    · rw [h]
      exact Nat.zero_le _
    · rw [h, rank_length]
      exact Nat.min_le_right _ _

/-- Witness of C5: 31 summaries on two pages. -/
theorem C5_report_length_witness :
    (ThisYear goRuntime (([numberedPage 0 20 "token-2"] ++ [numberedPage 20 11 ""]).map
      Except.ok ++ [])).results.length = 30 ∧
    distinctLabels (recordsOf ([numberedPage 0 20 "token-2"] ++ [numberedPage 20 11 ""])) = 31 :=
  have h := C5_report_length goRuntime [numberedPage 0 20 "token-2"] (numberedPage 20 11 "") []
    (by decide) (by decide)
  have n : distinctLabels
      (recordsOf ([numberedPage 0 20 "token-2"] ++ [numberedPage 20 11 ""])) = 31 := by decide
  ⟨by rw [h.1, n]; rfl, n⟩

/-- C6: when more than 30 distinct summaries have a total, the report holds
30 entries of the map `sums`, no summary twice, and every entry of the map whose
summary is not in the report has a total that is at most the duration of every
entry of the report. -/
theorem C6_truncation_keeps_largest (rt : Runtime) (pre : List Events) (last : Events)
    (rest : List (Except GoError Events))
    (hpre : ∀ p ∈ pre, p.NextPageToken ≠ "") (hlast : last.NextPageToken = "")
    (hmany : 30 < (addItems rt [] (recordsOf (pre ++ [last]))).length) :
    (ThisYear rt ((pre ++ [last]).map Except.ok ++ rest)).results.length = 30 ∧
    (∀ r ∈ (ThisYear rt ((pre ++ [last]).map Except.ok ++ rest)).results,
      (r.Summary, r.Duration) ∈ addItems rt [] (recordsOf (pre ++ [last]))) ∧
    ((ThisYear rt ((pre ++ [last]).map Except.ok ++ rest)).results.map result.Summary).Nodup ∧
    (∀ p ∈ addItems rt [] (recordsOf (pre ++ [last])),
      p.1 ∉ (ThisYear rt ((pre ++ [last]).map Except.ok ++ rest)).results.map result.Summary →
      ∀ r ∈ (ThisYear rt ((pre ++ [last]).map Except.ok ++ rest)).results,
        p.2 ≤ r.Duration) := by
  rw [ThisYear_pages rt pre last rest hpre hlast]
  simp only
  refine ⟨?_, ?_, ?_, ?_⟩
  · rw [rank_length]
    exact Nat.min_eq_right (Nat.le_of_lt hmany)
  · exact fun r hr => mem_rank rt _ r hr
  · exact rank_nodup rt _ (nodup_keys_addItems rt _ [] (by simp [SumMap.keys]))
  · exact fun p hp hout => rank_keeps_largest rt _ p hp hout

/-- Witness of C6: 31 summaries on two pages. -/
theorem C6_truncation_keeps_largest_witness :
    30 < (addItems goRuntime []
      (recordsOf ([numberedPage 0 20 "token-2"] ++ [numberedPage 20 11 ""]))).length ∧
    (ThisYear goRuntime (([numberedPage 0 20 "token-2"] ++ [numberedPage 20 11 ""]).map
      Except.ok ++ [])).results.length = 30 :=
  have hmany : 30 < (addItems goRuntime []
      (recordsOf ([numberedPage 0 20 "token-2"] ++ [numberedPage 20 11 ""]))).length := by
    decide
  ⟨hmany,
    (C6_truncation_keeps_largest goRuntime [numberedPage 0 20 "token-2"]
      (numberedPage 20 11 "") [] (by decide) (by decide) hmany).1⟩

/-- C7: an item whose start or end date-time is empty leaves the map `sums` as
it is, and a summary that occurs only on such items is not in the report. -/
theorem C7_undated_skipped (rt : Runtime) (sums : SumMap) (item : Event)
    (hitem : item.Start.DateTime = "" ∨ item.End.DateTime = "") :
    addItem rt sums item = sums ∧
    ∀ (pre : List Events) (last : Events) (rest : List (Except GoError Events)),
      (∀ p ∈ pre, p.NextPageToken ≠ "") → last.NextPageToken = "" →
      (∀ e ∈ recordsOf (pre ++ [last]), e.Summary = item.Summary →
        e.Start.DateTime = "" ∨ e.End.DateTime = "") →
      ∀ r ∈ (ThisYear rt ((pre ++ [last]).map Except.ok ++ rest)).results,
        r.Summary ≠ item.Summary := by
  refine ⟨by simp [addItem, hitem], ?_⟩
  intro pre last rest hpre hlast honly r hr hsum
  rw [ThisYear_pages rt pre last rest hpre hlast] at hr
  have hmem := mem_rank rt _ r hr
  have hkey : r.Summary ∈ SumMap.keys (addItems rt [] (recordsOf (pre ++ [last]))) :=
    List.mem_map.2 ⟨_, hmem, rfl⟩
  rw [mem_keys_addItems] at hkey
  rcases hkey with hkey | ⟨e, he, hd, hk⟩
  · simp [SumMap.keys] at hkey
  · exact hd (honly e he (hk.trans hsum))

/-- Witness of C7: the all-day event `Holiday` of `firstPage`. -/
theorem C7_undated_skipped_witness :
    addItem goRuntime [("Review", 7200000000000)] ⟨"Holiday", ⟨""⟩, ⟨""⟩⟩
      = [("Review", 7200000000000)] ∧
    ∀ r ∈ (ThisYear goRuntime (([firstPage] ++ [standupPage]).map Except.ok ++ [])).results,
      r.Summary ≠ "Holiday" :=
  have h := C7_undated_skipped goRuntime [("Review", 7200000000000)]
    ⟨"Holiday", ⟨""⟩, ⟨""⟩⟩ (Or.inl rfl)
  ⟨h.1, h.2 [firstPage] standupPage [] (by decide) (by decide) (by decide)⟩

/-- C8, as amended: an item with a start or an end date-time that is non-empty
but does not parse as RFC3339 is skipped only when its other date-time is empty.
When both date-times are non-empty the item is not skipped: the error of
`time.Parse` is dropped, the date-time that does not parse counts as Go's zero
time, the summary of the item gets an entry, `end.Sub(start)` is added to its
total with int64 wraparound, and the totals of the other summaries stay. -/
theorem C8_unparseable_not_skipped (rt : Runtime) (sums : SumMap) (item : Event)
    (hbad : (item.Start.DateTime ≠ "" ∧ rt.Parse item.Start.DateTime = none) ∨
      (item.End.DateTime ≠ "" ∧ rt.Parse item.End.DateTime = none)) :
    ¬ rt.valid item ∧
    ((item.Start.DateTime = "" ∨ item.End.DateTime = "") → addItem rt sums item = sums) ∧
    (item.Start.DateTime ≠ "" → item.End.DateTime ≠ "" →
      item.Summary ∈ SumMap.keys (addItem rt sums item) ∧
      SumMap.get (addItem rt sums item) item.Summary =
        wrapInt64 (SumMap.get sums item.Summary +
          Time.Sub ((rt.Parse item.End.DateTime).getD zeroTime)
            ((rt.Parse item.Start.DateTime).getD zeroTime)) ∧
      ∀ label, label ≠ item.Summary →
        SumMap.get (addItem rt sums item) label = SumMap.get sums label) := by
  refine ⟨?_, ?_, ?_⟩
  · rintro ⟨-, h₁, h₂⟩
    rcases hbad with ⟨-, h⟩ | ⟨-, h⟩
    · rw [h] at h₁
      exact absurd h₁ (by simp)
    · rw [h] at h₂
      exact absurd h₂ (by simp)
  · intro h
    simp [addItem, h]
  · intro hs he
    have hd : dated item := by
      unfold dated
      simp [hs, he]
    refine ⟨?_, ?_, ?_⟩
    · rw [mem_keys_addItem]
      exact Or.inr ⟨hd, rfl⟩
    · rw [get_addItem, if_pos ⟨hd, rfl⟩]
      unfold Runtime.itemDuration
      simp only [parseIgnoringError_eq]
    · intro label hl
      rw [get_addItem, if_neg]
      rintro ⟨-, h⟩
      exact hl h.symm

/-- Witness of C8: the start `garbage` reads as the zero time, and the 2023
years up to the end saturate `Sub` at the largest duration. -/
theorem C8_unparseable_not_skipped_witness :
    "Lunch" ∈ SumMap.keys (addItem goRuntime [] unparsedItem) ∧
    SumMap.get (addItem goRuntime [] unparsedItem) "Lunch" = 9223372036854775807 :=
  have h := (C8_unparseable_not_skipped goRuntime [] unparsedItem
    (Or.inl ⟨by decide, by decide⟩)).2.2 (by decide) (by decide)
  ⟨h.1, h.2.1.trans (by decide)⟩

/-- Counterexample to C8 as stated: the start of the item is non-empty and does
not parse, and the step changes the map. -/
theorem C8_counterexample :
    unparsedItem.Start.DateTime ≠ "" ∧
    goRuntime.Parse unparsedItem.Start.DateTime = none ∧
    addItem goRuntime [] unparsedItem = [("Lunch", 9223372036854775807)] ∧
    addItem goRuntime [] unparsedItem ≠ [] := by
  decide

/-- C9, as amended: after a complete sequence of pages in which no item with
two non-empty date-times ends before it starts (a date-time that does not parse
counting as Go's zero time) and no running total exceeds the largest int64,
every value of the map `sums` is non-negative after each item, and so is every
duration in the report. -/
theorem C9_nonnegative (rt : Runtime) (pre : List Events) (last : Events)
    (rest : List (Except GoError Events))
    (hpre : ∀ p ∈ pre, p.NextPageToken ≠ "") (hlast : last.NextPageToken = "")
    (hord : ∀ e ∈ recordsOf (pre ++ [last]), dated e →
      (rt.Parse e.Start.DateTime).getD zeroTime ≤ (rt.Parse e.End.DateTime).getD zeroTime)
    (hsum : ∀ n label,
      labelTotal rt.itemDuration label ((recordsOf (pre ++ [last])).take n) ≤ maxDuration) :
    (∀ n, ∀ p ∈ addItems rt [] ((recordsOf (pre ++ [last])).take n), 0 ≤ p.2) ∧
    (∀ r ∈ (ThisYear rt ((pre ++ [last]).map Except.ok ++ rest)).results, 0 ≤ r.Duration) := by
  have hnn : ∀ e ∈ recordsOf (pre ++ [last]), dated e → 0 ≤ rt.itemDuration e := by
    intro e he hd
    have := hord e he hd
    rw [← parseIgnoringError_eq, ← parseIgnoringError_eq] at this
    exact Time.Sub_nonneg _ _ this
  have hrange : ∀ n label,
      InRange (labelTotal rt.itemDuration label ((recordsOf (pre ++ [last])).take n)) := by
    intro n label
    refine ⟨le_trans (by unfold minDuration; norm_num) (labelTotal_nonneg _ _ _ ?_), hsum n label⟩
    intro e he hd
    exact hnn e (List.mem_of_mem_take he) hd
  have hget : ∀ n label,
      0 ≤ SumMap.get (addItems rt [] ((recordsOf (pre ++ [last])).take n)) label := by
    intro n label
    rw [get_addItems_eq_total]
    · exact labelTotal_nonneg _ _ _ (fun e he hd => hnn e (List.mem_of_mem_take he) hd)
    · intro k label'
      rw [List.take_take]
      exact hrange _ _
  constructor
  · intro n p hp
    have hnodup := nodup_keys_addItems rt ((recordsOf (pre ++ [last])).take n) []
      (by simp [SumMap.keys])
    have := ((SumMap.mem_of_nodup _ hnodup p.1 p.2).1 hp).2
    rw [← this]
    exact hget n p.1
  · rw [ThisYear_pages rt pre last rest hpre hlast]
    intro r hr
    rw [report_duration rt _ r hr]
    have := hget (recordsOf (pre ++ [last])).length r.Summary
    rwa [List.take_length] at this

/-- Witness of C9: the meetings of `firstPage` and `standupPage`. -/
theorem C9_nonnegative_witness :
    (∀ n, ∀ p ∈ addItems goRuntime [] ((recordsOf ([firstPage] ++ [standupPage])).take n),
      0 ≤ p.2) ∧
    (∀ r ∈ (ThisYear goRuntime (([firstPage] ++ [standupPage]).map Except.ok ++ [])).results,
      0 ≤ r.Duration) :=
  C9_nonnegative goRuntime [firstPage] standupPage [] (by decide) (by decide) (by decide)
    (runningTotals_of_bounded (fun x => x ≤ maxDuration) (by decide) _ _ (by decide))

/-- Counterexample to C9 as stated: an item that ends an hour before it starts
puts minus one hour into the map and into the report.  A second run shows the
int64 wraparound: two items of 200 years each, both ending after they start,
leave a negative total. -/
theorem C9_counterexample :
    addItem goRuntime [] ⟨"Flight", ⟨"2024-03-01T10:00:00Z"⟩, ⟨"2024-03-01T09:00:00Z"⟩⟩
      = [("Flight", -3600000000000)] ∧
    (ThisYear goRuntime [Except.ok backwardsPage]).results = [⟨"Flight", -3600000000000⟩] ∧
    (¬ ∀ r ∈ (ThisYear goRuntime [Except.ok backwardsPage]).results, 0 ≤ r.Duration) ∧
    (ThisYear goRuntime [Except.ok centuriesPage]).results
      = [⟨"Era", -5824049673709551616⟩] := by
  decide

/-- C10, as amended: when no summary in the report holds a line feed, the text
written to standard output has exactly one line per report entry, and line `k`
(counted from 1) is the number `k`, a full stop and a blank, the summary of the
`k`-th entry, a colon and a blank, and its duration as `Duration.String`
prints it. -/
theorem C10_printed_lines (rt : Runtime) (responses : List (Except GoError Events))
    (hlf : ∀ r ∈ (ThisYear rt responses).results, '\n' ∉ r.Summary.data) :
    (textLines (ThisYear rt responses).stdout.data).length
      = (ThisYear rt responses).results.length ∧
    ∀ k (hk : k < (ThisYear rt responses).results.length),
      (textLines (ThisYear rt responses).stdout.data)[k]? =
        some (itoa (k + 1) ++ ". " ++ (ThisYear rt responses).results[k].Summary ++ ": "
          ++ (ThisYear rt responses).results[k].Duration.String).data := by
  have hprint : (ThisYear rt responses).stdout = printFrom 0 (ThisYear rt responses).results := by
    unfold ThisYear
    split <;> rfl
  rw [hprint]
  have := textLines_printFrom (ThisYear rt responses).results 0 hlf
  simpa using this

/-- Witness of C10: the two lines printed for `firstPage` and `standupPage`. -/
theorem C10_printed_lines_witness :
    (textLines (ThisYear goRuntime [Except.ok firstPage, Except.ok standupPage]).stdout.data).length
      = (ThisYear goRuntime [Except.ok firstPage, Except.ok standupPage]).results.length ∧
    (ThisYear goRuntime [Except.ok firstPage, Except.ok standupPage]).stdout
      = "1. Review: 2h0m0s\n2. Standup: 1h15m0s\n" :=
  ⟨(C10_printed_lines goRuntime [Except.ok firstPage, Except.ok standupPage] (by decide)).1,
    by decide⟩

/-- Counterexample to C10 as stated: the report has one entry, whose summary
holds a line feed, and the text written has two lines, the second of which
carries no number. -/
theorem C10_counterexample :
    (ThisYear goRuntime [Except.ok twoLinePage]).results.length = 1 ∧
    (ThisYear goRuntime [Except.ok twoLinePage]).stdout = "1. Lunch\nwith Ann: 1h0m0s\n" ∧
    textLines (ThisYear goRuntime [Except.ok twoLinePage]).stdout.data
      = ["1. Lunch".data, "with Ann: 1h0m0s".data] ∧
    (textLines (ThisYear goRuntime [Except.ok twoLinePage]).stdout.data).length
      ≠ (ThisYear goRuntime [Except.ok twoLinePage]).results.length := by
  decide

end CalendarSum
